import Mathlib

set_option maxHeartbeats 1000000
set_option maxRecDepth 4000

namespace OwlSpec

unseal Rat.mul Rat.add Rat.inv Rat.sub

/-! Association-list models of Rust `HashMap` and `HashSet`.
`lookupA` returns the first matching entry; `insertA` replaces the first
matching entry in place (preserving its position, as `HashMap::insert`
replaces the value of an existing key) and appends otherwise; `updateA`
modifies the value at a key when present (`get_mut`). -/

/-- First value stored under key `k`, mirroring `HashMap::get`. -/
def lookupA {κ α : Type} [DecidableEq κ] : List (κ × α) → κ → Option α
  | [], _ => none
  | (k', v) :: rest, k => if k' = k then some v else lookupA rest k

/-- Insert `(k, v)`: replace the first entry with key `k` in place, else append. -/
def insertA {κ α : Type} [DecidableEq κ] : List (κ × α) → κ → α → List (κ × α)
  | [], k, v => [(k, v)]
  | (k', v') :: rest, k, v =>
    if k' = k then (k, v) :: rest else (k', v') :: insertA rest k v

/-- Modify the value stored at `k` when present, mirroring `HashMap::get_mut`. -/
def updateA {κ α : Type} [DecidableEq κ] : List (κ × α) → κ → (α → α) → List (κ × α)
  | [], _, _ => []
  | (k', v) :: rest, k, f =>
    if k' = k then (k', f v) :: rest else (k', v) :: updateA rest k f

/-- Insert an element into a set modelled as a list, mirroring `HashSet::insert`. -/
def insertSet {α : Type} [DecidableEq α] (l : List α) (x : α) : List α :=
  if x ∈ l then l else l ++ [x]

/-- Return the first `some` produced by `f` over the list, mirroring the
fail-fast `for`/`return Err` loops of the validator suite. -/
def firstSome {α β : Type} : List α → (α → Option β) → Option β
  | [], _ => none
  | x :: xs, f => match f x with
    | some e => some e
    | none => firstSome xs f

/-! Emotional appraisal engine, from `src/emotional_system.rs`.
Rust `f64` values are modelled as rationals; `f64::EPSILON` is the exact
value `2^(-52)` of the Rust constant. -/

/-- Exact rational value of `f64::EPSILON`. -/
def epsF64 : Rat := 1 / 2 ^ 52

/-- Absolute value on rationals (`f64::abs`), kept executable by definition. -/
def ratAbs (x : Rat) : Rat := if x < 0 then -x else x

/-- Larger of two rationals (`f64::max`), kept executable by definition. -/
def ratMax (a b : Rat) : Rat := if a < b then b else a

/-- Smaller of two rationals (`f64::min`), kept executable by definition. -/
def ratMin (a b : Rat) : Rat := if b < a then b else a

/-- The closed 16-value emotion enum of `emotional_system.rs`. -/
inductive EmotionType : Type
  | distress | fear | hope | joy | satisfaction | fearConfirmed
  | disappointment | relief | happyFor | resentment | pity | gloating
  | gratitude | anger | gratification | remorse
deriving DecidableEq

/-- Fixed Pleasure/Arousal/Dominance vector per emotion type (`pad_values`). -/
def EmotionType.pad_values : EmotionType → Rat × Rat × Rat
  | .distress => (-61/100, 28/100, -36/100)
  | .fear => (-64/100, 60/100, -43/100)
  | .hope => (51/100, 23/100, 14/100)
  | .joy => (76/100, 48/100, 35/100)
  | .satisfaction => (87/100, 20/100, 62/100)
  | .fearConfirmed => (-61/100, 6/100, -32/100)
  | .disappointment => (-61/100, -15/100, -29/100)
  | .relief => (29/100, -19/100, -28/100)
  | .happyFor => (64/100, 35/100, 25/100)
  | .resentment => (-35/100, 35/100, 29/100)
  | .pity => (-52/100, 2/100, -21/100)
  | .gloating => (-45/100, 48/100, 42/100)
  | .gratitude => (64/100, 16/100, -21/100)
  | .anger => (-51/100, 59/100, 25/100)
  | .gratification => (69/100, 57/100, 63/100)
  | .remorse => (-57/100, 28/100, -34/100)

/-- A goal (`Goal` struct): name, utility, likelihood, maintenance flag. -/
structure Goal : Type where
  name : String
  utility : Rat
  likelihood : Rat
  is_maintenance : Bool
deriving DecidableEq

/-- Constructor `Goal::new`: likelihood defaults to 0.5. -/
def Goal.new (name : String) (utility : Rat) (is_maintenance : Bool) : Goal :=
  ⟨name, utility, 1/2, is_maintenance⟩

/-- An accumulated emotion entry (`Emotion` struct). -/
structure Emotion : Type where
  emotion_type : EmotionType
  intensity : Rat
deriving DecidableEq

/-- A belief to be appraised (`Belief` struct). -/
structure Belief : Type where
  likelihood : Rat
  causal_agent_name : Option String
  affected_goal_names : List String
  goal_congruences : List Rat
  is_incremental : Bool
deriving DecidableEq

/-- Per-character emotional state (`EmotionalState` struct). -/
structure EmotionalState : Type where
  emotions : List Emotion
  goals : List (String × Goal)
  gain : Rat
deriving DecidableEq

/-- Constructor `EmotionalState::new`: empty emotions and goals, gain 1.0. -/
def EmotionalState.new : EmotionalState := ⟨[], [], 1⟩

/-- Method `add_goal`: insert or overwrite the goal keyed by its name. -/
def EmotionalState.add_goal (s : EmotionalState) (g : Goal) : EmotionalState :=
  { s with goals := insertA s.goals g.name g }

/-- Method `update_emotional_state`: add intensity onto an existing entry of the
same type, else push a new entry at the end. -/
def update_emotional_state (es : List Emotion) (ne : Emotion) : List Emotion :=
  match es with
  | [] => [ne]
  | e :: rest =>
    if e.emotion_type = ne.emotion_type then
      { e with intensity := e.intensity + ne.intensity } :: rest
    else
      e :: update_emotional_state rest ne

/-- Intensity-weighted PAD sums over all current emotions (the accumulation
loop of `get_pad`). -/
def padSum (es : List Emotion) : Rat × Rat × Rat :=
  es.foldl (fun acc e =>
    let pad := e.emotion_type.pad_values
    (acc.1 + e.intensity * pad.1, acc.2.1 + e.intensity * pad.2.1,
     acc.2.2 + e.intensity * pad.2.2)) (0, 0, 0)

/-- The per-axis squashing expression of `get_pad`. -/
def squash (gain x : Rat) : Rat :=
  if 0 ≤ x then gain * x / (gain * x + 1) else -gain * x / (gain * x - 1)

/-- Method `get_pad`: squash each intensity-weighted axis sum. -/
def EmotionalState.get_pad (s : EmotionalState) : Rat × Rat × Rat :=
  let p := padSum s.emotions
  (squash s.gain p.1, squash s.gain p.2.1, squash s.gain p.2.2)

/-- Function `static_calculate_delta_likelihood`: returns the updated goal and
the delta. A resolved (likelihood at an extreme) non-maintenance goal yields
delta 0 and is left unchanged; otherwise the likelihood moves incrementally
(with clamping to [-1, 1]) or absolutely. -/
def calcDelta (g : Goal) (congruence likelihood : Rat) (is_incremental : Bool) :
    Goal × Rat :=
  if ¬ g.is_maintenance ∧ (1 ≤ g.likelihood ∨ g.likelihood ≤ -1) then
    (g, 0)
  else
    let newL :=
      if is_incremental then
        ratMin (ratMax (g.likelihood + likelihood * congruence) (-1)) 1
      else
        (congruence * likelihood + 1) / 2
    ({ g with likelihood := newL }, newL - g.likelihood)

/-- The `positive` flag of `evaluate_internal_emotion`. -/
def positiveFor (utility delta : Rat) : Bool :=
  if 0 ≤ utility then 0 ≤ delta else delta < 0

/-- The list of emotion types pushed by `evaluate_internal_emotion`, derived
from the resulting likelihood branch with the epsilon comparisons of the
source. -/
def emotionTypesFor (utility delta likelihood : Rat) : List EmotionType :=
  if 0 < likelihood ∧ likelihood < 1 then
    if positiveFor utility delta then [.hope] else [.fear]
  else if ratAbs (likelihood - 1) < epsF64 then
    if 0 ≤ utility then
      (if delta < 1/2 then [.satisfaction] else []) ++ [.joy]
    else
      (if delta < 1/2 then [.fearConfirmed] else []) ++ [.distress]
  else if ratAbs likelihood < epsF64 then
    if 0 ≤ utility then
      (if 1/2 < delta then [.disappointment] else []) ++ [.distress]
    else
      (if 1/2 < delta then [.relief] else []) ++ [.joy]
  else
    []

/-- The accumulation loop of `evaluate_internal_emotion`: push each derived
emotion type at intensity |utility * delta|. -/
def evalEmotionList (es : List Emotion) (utility delta likelihood : Rat) :
    List Emotion :=
  (emotionTypesFor utility delta likelihood).foldl
    (fun es et => update_emotional_state es ⟨et, ratAbs (utility * delta)⟩) es

/-- Function `evaluate_internal_emotion`: accumulate the derived emotion types
unless the intensity |utility * delta| is 0, in which case nothing at all is
emitted. -/
def evalEmotion (s : EmotionalState) (utility delta likelihood : Rat) :
    EmotionalState :=
  if 0 < ratAbs (utility * delta) then
    { s with emotions := evalEmotionList s.emotions utility delta likelihood }
  else
    s

/-- The first loop of `appraise`: walk the affected goal names positionally
(index `i` matches the congruence list), skip names absent from the goal map,
update present goals in place, and collect (utility, delta, new likelihood)
triples in order. Returns `none` when `goal_congruences[i]` is out of bounds
for a present goal name, which in the Rust source is an index panic. -/
def appraiseCollect (b : Belief) :
    List String → Nat → List (String × Goal) →
    Option (List (String × Goal) × List (Rat × Rat × Rat))
  | [], _, goals => some (goals, [])
  | n :: rest, i, goals =>
    match lookupA goals n with
    | none => appraiseCollect b rest (i + 1) goals
    | some g =>
      match b.goal_congruences.get? i with
      | none => none
      | some c =>
        let r := calcDelta g c b.likelihood b.is_incremental
        (appraiseCollect b rest (i + 1) (insertA goals n r.1)).map
          (fun p => (p.1, (g.utility, r.2, r.1.likelihood) :: p.2))

/-- Method `appraise`: update goals, then evaluate the collected triples in
order. `none` models the `goal_congruences[i]` index panic. -/
def EmotionalState.appraise (s : EmotionalState) (b : Belief) :
    Option EmotionalState :=
  (appraiseCollect b b.affected_goal_names 0 s.goals).map (fun p =>
    p.2.foldl (fun st u => evalEmotion st u.1 u.2.1 u.2.2)
      { s with goals := p.1 })

/-- Method `decay`: scale every intensity by the factor and drop entries whose
new intensity is at or below the 0.001 threshold. -/
def EmotionalState.decay (s : EmotionalState) (decay_factor : Rat) :
    EmotionalState :=
  let scaled := s.emotions.map
    (fun e => { e with intensity := e.intensity * decay_factor })
  { s with emotions := scaled.filter (fun e => decide (1/1000 < e.intensity)) }

/-! Narrative core, from `src/narrative_core.rs`. Identifiers (`TimelineId`,
`CharacterId`, `MemoryId`, `EventId`) are bare `u64` newtypes in the source and
are modelled as `Nat`. -/

/-- The closed ability enum. -/
inductive Ability : Type
  | timelinePerception | precognition | memoryImmunity | loopMemory
  | causalityHacking
deriving DecidableEq

/-- The closed relationship-state enum. -/
inductive RelationshipState : Type
  | hostile | distrustful | neutral | friendly | allied
deriving DecidableEq

/-- Memory provenance (`MemoryProvenance` enum). -/
inductive MemoryProvenance : Type
  | witnessed (character : Nat)
  | traded (original_owner : Nat) (acquired_via : String)
  | forged (forger : String)
  | compound (sources : List Nat)
deriving DecidableEq

/-- A memory fragment (`Memory` struct); `fidelity` is an `f32` in the source,
modelled as a rational. -/
structure Memory : Type where
  id : Nat
  event : Nat
  source_timeline : Nat
  provenance : MemoryProvenance
  fidelity : Rat
deriving DecidableEq

/-- A character (`Character` struct). -/
structure Character : Type where
  id : Nat
  name : String
  current_timeline : Nat
  native_timeline : Nat
  memories : List Nat
  knowledge_flags : List String
  alive : Bool
  abilities : List Ability
  relationships : List (Nat × RelationshipState)
  emotional_state : EmotionalState
deriving DecidableEq

/-- A timeline (`Timeline` struct). -/
structure Timeline : Type where
  id : Nat
  parent : Option Nat
  divergence_event : Option Nat
  events : List Nat
  characters : List Nat
  causality_stable : Bool
deriving DecidableEq

/-- Event effects (`EventEffect` enum); the `from` and `to` fields of
`MemoryTransfer` are renamed `fromWhom`/`toWhom`, which Lean reserves. -/
inductive EventEffect : Type
  | characterDeath (character : Nat)
  | characterResurrection (character : Nat) (mechanism : String)
  | relationshipChange (character1 character2 : Nat) (new_state : RelationshipState)
  | knowledgeGained (character : Nat) (flag : String)
  | memoryTransfer (memory : Nat) (fromWhom : Option Nat) (toWhom : Nat)
  | timelineBranch (new_timeline : Nat)
  | appraisalTrigger (character : Nat) (belief : Belief)
  | addGoal (character : Nat) (goal : Goal)
deriving DecidableEq

/-- Causality violations (`CausalityViolation` enum). -/
inductive CausalityViolation : Type
  | effectBeforeCause (mechanism : String)
  | retroactiveChange (mechanism : String)
  | superposition (mechanism : String)
deriving DecidableEq

/-- An event (`Event` struct). -/
structure Event : Type where
  id : Nat
  timeline : Nat
  description : String
  participants : List Nat
  effects : List EventEffect
  causality_violation : Option CausalityViolation
deriving DecidableEq

/-- The top-level store (`Multiverse` struct). -/
structure Multiverse : Type where
  timelines : List (Nat × Timeline)
  characters : List (Nat × Character)
  memories : List (Nat × Memory)
  events : List (Nat × Event)
  root_timeline : Nat
  next_timeline_id : Nat
  next_character_id : Nat
  next_memory_id : Nat
  next_event_id : Nat
deriving DecidableEq

/-- Constructor `Multiverse::new`: one root timeline with id 0. -/
def Multiverse.new : Multiverse :=
  { timelines := [(0, ⟨0, none, none, [], [], true⟩)]
    characters := []
    memories := []
    events := []
    root_timeline := 0
    next_timeline_id := 1
    next_character_id := 0
    next_memory_id := 0
    next_event_id := 0 }

/-- Method `create_character`: allocate a fresh id, insert an alive character
with empty collections, and add it to the named timeline's character set when
that timeline exists. Returns the id and the new store. -/
def Multiverse.create_character (mv : Multiverse) (name : String)
    (timeline : Nat) : Nat × Multiverse :=
  let id := mv.next_character_id
  let character : Character :=
    ⟨id, name, timeline, timeline, [], [], true, [], [], EmotionalState.new⟩
  let chars := insertA mv.characters id character
  let addChar := fun (t : Timeline) => { t with characters := insertSet t.characters id }
  let tls :=
    match lookupA mv.timelines timeline with
    | some _ => updateA mv.timelines timeline addChar
    | none => mv.timelines
  (id, { mv with characters := chars, timelines := tls, next_character_id := id + 1 })

/-- Method `create_timeline_branch`: allocate a fresh timeline copying the
parent's current character set (empty when the parent is missing). -/
def Multiverse.create_timeline_branch (mv : Multiverse) (parent : Nat)
    (divergence_event : Nat) : Nat × Multiverse :=
  let id := mv.next_timeline_id
  let parent_characters :=
    match lookupA mv.timelines parent with
    | some t => t.characters
    | none => []
  let timeline : Timeline :=
    ⟨id, some parent, some divergence_event, [], parent_characters, true⟩
  (id, { mv with timelines := insertA mv.timelines id timeline, next_timeline_id := id + 1 })

/-- Method `create_witnessed_memory`: allocate a memory with `Witnessed`
provenance and fidelity 1.0; no participant check is performed here. -/
def Multiverse.create_witnessed_memory (mv : Multiverse) (event : Nat)
    (timeline : Nat) (character : Nat) : Nat × Multiverse :=
  let id := mv.next_memory_id
  let memory : Memory := ⟨id, event, timeline, .witnessed character, 1⟩
  (id, { mv with memories := insertA mv.memories id memory, next_memory_id := id + 1 })

/-- Update the character stored under `cid` when present (`get_mut` pattern
used throughout `apply_event_effects`). -/
def modifyCharacter (mv : Multiverse) (cid : Nat) (f : Character → Character) :
    Multiverse :=
  { mv with characters := updateA mv.characters cid f }

/-- One arm of `apply_event_effects`. Every arm is a silent no-op when the
referenced character is missing. `none` models the `goal_congruences[i]`
index panic reachable through `AppraisalTrigger`. -/
def applyEffect (mv : Multiverse) (eff : EventEffect) : Option Multiverse :=
  match eff with
  | .characterDeath character =>
    some (modifyCharacter mv character (fun c => { c with alive := false }))
  | .characterResurrection character _ =>
    some (modifyCharacter mv character (fun c => { c with alive := true }))
  | .relationshipChange character1 character2 new_state =>
    let mv1 := modifyCharacter mv character1
      (fun c => { c with relationships := insertA c.relationships character2 new_state })
    let mv2 := modifyCharacter mv1 character2
      (fun c => { c with relationships := insertA c.relationships character1 new_state })
    some mv2
  | .knowledgeGained character flag =>
    some (modifyCharacter mv character
      (fun c => { c with knowledge_flags := insertSet c.knowledge_flags flag }))
  | .memoryTransfer memory _ toWhom =>
    some (modifyCharacter mv toWhom
      (fun c => { c with memories := insertSet c.memories memory }))
  | .timelineBranch _ => some mv
  | .appraisalTrigger character belief =>
    match lookupA mv.characters character with
    | none => some mv
    | some c =>
      (c.emotional_state.appraise belief).map (fun es =>
        modifyCharacter mv character (fun c => { c with emotional_state := es }))
  | .addGoal character goal =>
    some (modifyCharacter mv character
      (fun c => { c with emotional_state := c.emotional_state.add_goal goal }))

/-- Method `apply_event_effects`: apply the effects sequentially; a panic in
any effect (modelled as `none`) aborts the whole call. -/
def applyEffects (mv : Multiverse) (effects : List EventEffect) :
    Option Multiverse :=
  effects.foldlM applyEffect mv

/-- The store onto which `record_event` applies the event's effects: the
event-id counter is bumped and the fresh id is appended to the named
timeline's event list exactly when that timeline exists. -/
def recordIntermediate (mv : Multiverse) (event : Event) : Multiverse :=
  let id := mv.next_event_id
  let mv1 := { mv with next_event_id := id + 1 }
  let addEv := fun (t : Timeline) => { t with events := t.events ++ [id] }
  match lookupA mv1.timelines event.timeline with
  | some _ => { mv1 with timelines := updateA mv1.timelines event.timeline addEv }
  | none => mv1

/-- Method `record_event`: assign a fresh id overwriting the input id, append
the id to the named timeline's event list when that timeline exists, apply all
effects, store the event, return the id. -/
def Multiverse.record_event (mv : Multiverse) (event : Event) :
    Option (Nat × Multiverse) :=
  let id := mv.next_event_id
  let ev := { event with id := id }
  (applyEffects (recordIntermediate mv event) ev.effects).map (fun mv3 =>
    (id, { mv3 with events := insertA mv3.events id ev }))

/-- Method `decay_emotions`: decay every character's emotional state. -/
def Multiverse.decay_emotions (mv : Multiverse) (decay_factor : Rat) :
    Multiverse :=
  let f := fun (p : Nat × Character) =>
    (p.1, { p.2 with emotional_state := p.2.emotional_state.decay decay_factor })
  { mv with characters := mv.characters.map f }

/-! Validator suite, from `src/properties.rs`. Each check is fail-fast; a
check returns `none` for `Ok(())` and `some e` for the first `Err`. Error
messages are modelled structurally: each constructor carries exactly the ids
interpolated into the corresponding `format!` string. -/

/-- Structured counterparts of the validator error messages. -/
inductive PropError : Type
  | memoryNotFound (memory : Nat)
  | witnessNotPresent (character : Nat) (event : Nat)
  | forgedNoForger (character : Nat) (memory : Nat)
  | compoundMissingSource (memory : Nat) (source : Nat)
  | deadParticipant (character : Nat) (event : Nat)
  | resurrectionNoMechanism (character : Nat)
  | aliveMismatch (character : Nat) (is_alive expected : Bool)
deriving DecidableEq

/-- The body of `prop_memory_consistency` for one owned memory id: the memory
must exist; a Witnessed memory's claimed witness must be a participant of the
referenced event when that event exists; a Forged memory needs a non-empty
forger; a Compound memory's sources must all exist. -/
def memoryCheck (mv : Multiverse) (char_id : Nat) (memory_id : Nat) :
    Option PropError :=
  match lookupA mv.memories memory_id with
  | none => some (.memoryNotFound memory_id)
  | some m =>
    match m.provenance with
    | .witnessed witness =>
      match lookupA mv.events m.event with
      | some ev =>
        if witness ∈ ev.participants then none
        else some (.witnessNotPresent char_id m.event)
      | none => none
    | .traded _ _ => none
    | .forged forger =>
      if forger = "" then some (.forgedNoForger char_id memory_id) else none
    | .compound sources =>
      match sources.find? (fun s => (lookupA mv.memories s).isNone) with
      | some s => some (.compoundMissingSource memory_id s)
      | none => none

/-- Check `prop_memory_consistency`. -/
def prop_memory_consistency (mv : Multiverse) : Option PropError :=
  firstSome mv.characters (fun p =>
    firstSome p.2.memories (fun memory_id => memoryCheck mv p.1 memory_id))

/-! Death Finality (`prop_death_finality`). The per-timeline liveness table
`HashMap<CharacterId, bool>` is an association list. -/

/-- Liveness lookup used while replaying events: an absent character counts as
dead (`.copied().unwrap_or(false)`). -/
def deathParticipantAlive (table : List (Nat × Bool)) (cid : Nat) : Bool :=
  (lookupA table cid).getD false

/-- Liveness lookup used by the final stored-flag comparison: an absent
character counts as alive (`.copied().unwrap_or(true)`). -/
def deathExpectedAlive (table : List (Nat × Bool)) (cid : Nat) : Bool :=
  (lookupA table cid).getD true

/-- Tests whether an effect is a `CharacterResurrection` of `cid`. -/
def isResurrectionOf (cid : Nat) : EventEffect → Bool
  | .characterResurrection character _ => character = cid
  | _ => false

/-- The body of the participant loop of the replay for one participant: they
must be alive per the table unless this same event carries a resurrection for
them. -/
def deathParticipantCheck (table : List (Nat × Bool)) (ev : Event) (p : Nat) :
    Option PropError :=
  if deathParticipantAlive table p then none
  else if ev.effects.any (isResurrectionOf p) then none
  else some (.deadParticipant p ev.id)

/-- The participant loop of the replay. -/
def deathCheckParticipants (table : List (Nat × Bool)) (ev : Event) :
    Option PropError :=
  firstSome ev.participants (deathParticipantCheck table ev)

/-- The effect loop of the replay: deaths and resurrections update the table
in order; a resurrection with an empty mechanism is an error. -/
def deathApplyEffects (table : List (Nat × Bool)) :
    List EventEffect → Except PropError (List (Nat × Bool))
  | [] => .ok table
  | eff :: rest =>
    match eff with
    | .characterDeath character =>
      deathApplyEffects (insertA table character false) rest
    | .characterResurrection character mechanism =>
      if mechanism = "" then .error (.resurrectionNoMechanism character)
      else deathApplyEffects (insertA table character true) rest
    | _ => deathApplyEffects table rest

/-- Replay one event id against the table; an id not present in the event map
is skipped. -/
def deathReplayEvent (mv : Multiverse) (table : List (Nat × Bool))
    (event_id : Nat) : Except PropError (List (Nat × Bool)) :=
  match lookupA mv.events event_id with
  | none => .ok table
  | some ev =>
    match deathCheckParticipants table ev with
    | some e => .error e
    | none => deathApplyEffects table ev.effects

/-- Replay a timeline's event list in order. -/
def deathReplayEvents (mv : Multiverse) :
    List (Nat × Bool) → List Nat → Except PropError (List (Nat × Bool))
  | table, [] => .ok table
  | table, event_id :: rest =>
    match deathReplayEvent mv table event_id with
    | .error e => .error e
    | .ok table' => deathReplayEvents mv table' rest

/-- Initial table for one timeline: a branch clones its parent's computed
table when available (empty otherwise); a root timeline starts every one of
its characters alive. -/
def deathInitTable (state : List (Nat × List (Nat × Bool))) (t : Timeline) :
    List (Nat × Bool) :=
  match t.parent with
  | some parent_id => (lookupA state parent_id).getD []
  | none => t.characters.foldl (fun tb c => insertA tb c true) []

/-- Process the sorted timelines in order, accumulating each timeline's
computed table keyed by its id. -/
def deathProcessTimelines (mv : Multiverse) :
    List (Nat × List (Nat × Bool)) → List Timeline →
    Except PropError (List (Nat × List (Nat × Bool)))
  | state, [] => .ok state
  | state, t :: rest =>
    match deathReplayEvents mv (deathInitTable state t) t.events with
    | .error e => .error e
    | .ok table => deathProcessTimelines mv (insertA state t.id table) rest

/-- The timeline values sorted by ascending id (a stable sort, modelling
`sort_by_key`). -/
def sortedTimelines (mv : Multiverse) : List Timeline :=
  List.insertionSort (fun a b => a.id ≤ b.id) (mv.timelines.map (fun p => p.2))

/-- The final comparison of `prop_death_finality` for one character: the
stored `alive` flag must match the computed table of their current timeline
(an absent character defaults to alive; a character whose current timeline
has no computed table is skipped). -/
def deathCharCheck (state : List (Nat × List (Nat × Bool)))
    (p : Nat × Character) : Option PropError :=
  match lookupA state p.2.current_timeline with
  | none => none
  | some table =>
    let expected := deathExpectedAlive table p.2.id
    if p.2.alive = expected then none
    else some (.aliveMismatch p.2.id p.2.alive expected)

/-- The final comparison loop of `prop_death_finality`. -/
def deathFinalCheck (mv : Multiverse)
    (state : List (Nat × List (Nat × Bool))) : Option PropError :=
  firstSome mv.characters (deathCharCheck state)

/-- Check `prop_death_finality`. -/
def prop_death_finality (mv : Multiverse) : Option PropError :=
  match deathProcessTimelines mv [] (sortedTimelines mv) with
  | .error e => some e
  | .ok state => deathFinalCheck mv state

/-! A Boolean transcription of the Death Finality sentence of the spec, used
to compare the claim's wording against `prop_death_finality`. The pipeline is
phrased as pure Boolean conditions plus a total table evolution, following the
claim sentence conjunct by conjunct. -/

/-- Spec wording: a resurrection with an empty mechanism string is itself a
failure; every other effect is unconstrained. -/
def mechanismOk : EventEffect → Bool
  | .characterResurrection _ mechanism => ¬ (mechanism = "")
  | _ => true

/-- Spec wording: CharacterDeath and CharacterResurrection effects update the
liveness table in event order. -/
def specApplyEffect (table : List (Nat × Bool)) : EventEffect → List (Nat × Bool)
  | .characterDeath character => insertA table character false
  | .characterResurrection character _ => insertA table character true
  | _ => table

/-- Table after applying one effect list in order. -/
def specTableAfterEffects (table : List (Nat × Bool))
    (effects : List EventEffect) : List (Nat × Bool) :=
  effects.foldl specApplyEffect table

/-- Spec wording: every participant of an event must be alive at that point
unless that same event carries a resurrection for them. -/
def specParticipantsOk (table : List (Nat × Bool)) (ev : Event) : Bool :=
  ev.participants.all (fun p =>
    deathParticipantAlive table p || ev.effects.any (isResurrectionOf p))

/-- Table after replaying a whole event-id list (ids missing from the event
map are skipped). -/
def specTableAfterEvents (mv : Multiverse) (table : List (Nat × Bool)) :
    List Nat → List (Nat × Bool)
  | [] => table
  | event_id :: rest =>
    match lookupA mv.events event_id with
    | none => specTableAfterEvents mv table rest
    | some ev => specTableAfterEvents mv (specTableAfterEffects table ev.effects) rest

/-- All replay conditions hold along one event-id list. -/
def specEventsOk (mv : Multiverse) (table : List (Nat × Bool)) :
    List Nat → Bool
  | [] => true
  | event_id :: rest =>
    match lookupA mv.events event_id with
    | none => specEventsOk mv table rest
    | some ev =>
      (specParticipantsOk table ev && ev.effects.all mechanismOk) &&
        specEventsOk mv (specTableAfterEffects table ev.effects) rest

/-- Computed tables of all timelines, processed in the given order. -/
def specStateAfter (mv : Multiverse)
    (state : List (Nat × List (Nat × Bool))) :
    List Timeline → List (Nat × List (Nat × Bool))
  | [] => state
  | t :: rest =>
    let init := deathInitTable state t
    specStateAfter mv (insertA state t.id (specTableAfterEvents mv init t.events)) rest

/-- All replay conditions hold across all timelines, processed in order. -/
def specTimelinesOk (mv : Multiverse) :
    List (Nat × List (Nat × Bool)) → List Timeline → Bool
  | _, [] => true
  | state, t :: rest =>
    let init := deathInitTable state t
    specEventsOk mv init t.events &&
      specTimelinesOk mv (insertA state t.id (specTableAfterEvents mv init t.events)) rest

/-- Spec wording of the final comparison: each character's stored alive flag
equals the computed table's value for them in their current timeline (an
absent character counts as alive; no table for the timeline means no
constraint). -/
def specFinalOk (mv : Multiverse)
    (state : List (Nat × List (Nat × Bool))) : Bool :=
  mv.characters.all (fun p =>
    match lookupA state p.2.current_timeline with
    | none => true
    | some table => p.2.alive = deathExpectedAlive table p.2.id)

/-- Death Finality as the spec sentence describes it, amended so that a branch
inherits its parent's fully computed liveness table (after all of the
parent's events), processing timelines in ascending id order. -/
def specDeathFinality (mv : Multiverse) : Bool :=
  let tls := sortedTimelines mv
  specTimelinesOk mv [] tls && specFinalOk mv (specStateAfter mv [] tls)

/-! The claim as literally stated: a branch's replay starts from its parent's
liveness table *as it stood at branch time*, i.e. after replaying only the
parent's events up to and including the branch's divergence event. The state
here records, for every processed timeline, both its starting table and its
fully replayed table. -/

/-- Event ids up to and including the first occurrence of `d` (all of them
when `d` never occurs). -/
def takeThrough (d : Nat) : List Nat → List Nat
  | [] => []
  | e :: rest => if e = d then [e] else e :: takeThrough d rest

/-- Starting table under the claim's literal wording: a root timeline starts
its characters alive; a branch starts from the parent's table as it stood at
branch time, reconstructed by replaying the parent's events truncated at the
divergence event from the parent's own starting table. -/
def claimInitTable (mv : Multiverse)
    (state : List (Nat × (List (Nat × Bool) × List (Nat × Bool))))
    (t : Timeline) : List (Nat × Bool) :=
  match t.parent with
  | none => t.characters.foldl (fun tb c => insertA tb c true) []
  | some parent_id =>
    match t.divergence_event, lookupA state parent_id,
        lookupA mv.timelines parent_id with
    | some d, some pdata, some pt =>
      specTableAfterEvents mv pdata.1 (takeThrough d pt.events)
    | _, _, _ => []

/-- Process timelines under the claim's literal wording, accumulating each
timeline's (starting table, final table) pair and the conjunction of all
replay conditions. -/
def claimProcess (mv : Multiverse) :
    Bool × List (Nat × (List (Nat × Bool) × List (Nat × Bool))) →
    List Timeline →
    Bool × List (Nat × (List (Nat × Bool) × List (Nat × Bool)))
  | acc, [] => acc
  | (ok, state), t :: rest =>
    let init := claimInitTable mv state t
    claimProcess mv
      (ok && specEventsOk mv init t.events,
       insertA state t.id (init, specTableAfterEvents mv init t.events))
      rest

/-- Final comparison under the claim's literal wording (against each
timeline's fully replayed table). -/
def claimFinalOk (mv : Multiverse)
    (state : List (Nat × (List (Nat × Bool) × List (Nat × Bool)))) : Bool :=
  mv.characters.all (fun p =>
    match lookupA state p.2.current_timeline with
    | none => true
    | some pdata => p.2.alive = deathExpectedAlive pdata.2 p.2.id)

/-- Death Finality exactly as the claim states it, with branch-time
inheritance. -/
def claimDeathFinality (mv : Multiverse) : Bool :=
  let r := claimProcess mv (true, []) (sortedTimelines mv)
  r.1 && claimFinalOk mv r.2

/-! Concrete stores, built through the mutation API, used as failing inputs
and counterexamples. `record_event` returns an `Option`; the `getD` fallback
is never taken in these constructions. -/

/-- A goal-carrying belief whose congruence list is shorter than its goal-name
list: `goal_congruences[0]` does not exist. -/
def beliefShort : Belief := ⟨1, none, ["g"], [], true⟩

/-- Store with one character (id 0) who holds goal "g". -/
def mvPanic : Multiverse :=
  let s1 := (Multiverse.new.create_character "A" 0).2
  ((s1.record_event ⟨99, 0, "give goal", [],
      [.addGoal 0 (Goal.new "g" 1 false)], none⟩).getD (0, s1)).2

/-- Event whose appraisal trigger carries `beliefShort` for character 0. -/
def evPanic : Event := ⟨99, 0, "trigger", [], [.appraisalTrigger 0 beliefShort], none⟩

/-- Store for the C2 counterexample: character X (id 0) in the root timeline;
event 0 (no effects) recorded in the root; timeline 1 branched from the root
at event 0; event 1 kills X in the root; event 2 has X participate in
timeline 1. At branch time X was alive in the parent, but the parent's fully
computed table has X dead. -/
def mvBranch : Multiverse :=
  let s1 := (Multiverse.new.create_character "X" 0).2
  let s2 := ((s1.record_event ⟨99, 0, "choice", [], [], none⟩).getD (0, s1)).2
  let s3 := (s2.create_timeline_branch 0 0).2
  let s4 := ((s3.record_event ⟨99, 0, "death", [0],
      [.characterDeath 0], none⟩).getD (0, s3)).2
  ((s4.record_event ⟨99, 1, "walk", [0], [], none⟩).getD (0, s4)).2

/-- Store for the C8 counterexample: timeline 1 branched from the (empty)
root, character Y (id 0) created directly in timeline 1, and one event of
timeline 1 in which Y participates and is simultaneously resurrected. Y is
absent from the parent's computed table, yet the check passes. -/
def mvAbsent : Multiverse :=
  let s1 := (Multiverse.new.create_timeline_branch 0 0).2
  let s2 := (s1.create_character "Y" 1).2
  ((s2.record_event ⟨99, 1, "rise", [0],
      [.characterResurrection 0 "gate"], none⟩).getD (0, s2)).2

/-- Emotional state for the C9 counterexample: one goal "g" with utility 1,
likelihood 0.5, not maintenance. -/
def stNeg : EmotionalState := ⟨[], [("g", ⟨"g", 1, 1/2, false⟩)], 1⟩

/-- Incremental belief driving goal "g" to the strictly negative likelihood
-2⁻⁵³, whose magnitude is below `f64::EPSILON`. -/
def beliefNeg : Belief := ⟨1/2 + 1/2^53, none, ["g"], [-1], true⟩

/-- The saturating belief of the likelihood-saturation property: incremental,
likelihood 1.0, one affected goal with congruence 1.0. -/
def beliefSat (nm : String) : Belief := ⟨1, none, [nm], [1], true⟩

/-- A plain effect-free event on the root timeline. -/
def evSimple : Event := ⟨77, 0, "event", [], [], none⟩

/-- The result of recording `evSimple` on a fresh store (the fallback of
`getD` is never taken). -/
def recSimple : Nat × Multiverse :=
  (Multiverse.new.record_event evSimple).getD (0, Multiverse.new)

/-- A fresh store holding two characters A (id 0) and B (id 1) in the root
timeline. -/
def mvTwo : Multiverse :=
  ((Multiverse.new.create_character "A" 0).2.create_character "B" 0).2

/-- Character A of `mvTwo`. -/
def chA : Character := ⟨0, "A", 0, 0, [], [], true, [], [], EmotionalState.new⟩

/-- Character B of `mvTwo`. -/
def chB : Character := ⟨1, "B", 0, 0, [], [], true, [], [], EmotionalState.new⟩

/-- The caller pattern of the witnessed-memory property: create the memory,
then add the returned id to the character's memory set (as the tests do
through `characters.get_mut(..).memories.insert`). -/
def addWitnessedMemory (mv : Multiverse) (event timeline character : Nat) :
    Multiverse :=
  let r := mv.create_witnessed_memory event timeline character
  modifyCharacter r.2 character
    (fun ch => { ch with memories := insertSet ch.memories r.1 })

/-- Store for the C7 witness: character A (id 0) participates in event 0 of
the root timeline. -/
def mvWitness : Multiverse :=
  let s1 := (Multiverse.new.create_character "A" 0).2
  ((s1.record_event ⟨99, 0, "seen", [0], [], none⟩).getD (0, s1)).2

/-- The recorded event of `mvWitness`. -/
def evWitness : Event := ⟨0, 0, "seen", [0], [], none⟩

/-- An event with participant 3 and no effects, for the C8 witness. -/
def evDoom : Event := ⟨5, 0, "doom", [3], [], none⟩

/-- A character living in timeline 3, for the C8 witness. -/
def chW : Character := ⟨4, "W", 3, 3, [], [], true, [], [], EmotionalState.new⟩

/-! Lemmas about the association-list primitives. -/

theorem lookupA_insertA_self {κ α : Type} [DecidableEq κ]
    (m : List (κ × α)) (k : κ) (v : α) : lookupA (insertA m k v) k = some v := by
  induction m with
  | nil => simp [insertA, lookupA]
  | cons p rest ih =>
    by_cases h : p.1 = k
    · simp [insertA, h, lookupA]
    · simp [insertA, h, lookupA, ih]

theorem lookupA_insertA_ne {κ α : Type} [DecidableEq κ]
    (m : List (κ × α)) (k k' : κ) (v : α) (h : k' ≠ k) :
    lookupA (insertA m k v) k' = lookupA m k' := by
  induction m with
  | nil => simp [insertA, lookupA, Ne.symm h]
  | cons p rest ih =>
    by_cases hp : p.1 = k
    · simp [insertA, hp, lookupA, Ne.symm h]
    · simp [insertA, hp, lookupA, ih]

theorem lookupA_updateA_self {κ α : Type} [DecidableEq κ]
    (m : List (κ × α)) (k : κ) (f : α → α) :
    lookupA (updateA m k f) k = (lookupA m k).map f := by
  induction m with
  | nil => simp [updateA, lookupA]
  | cons p rest ih =>
    by_cases h : p.1 = k
    · simp [updateA, h, lookupA]
    · simp [updateA, h, lookupA, ih]

theorem lookupA_updateA_ne {κ α : Type} [DecidableEq κ]
    (m : List (κ × α)) (k k' : κ) (f : α → α) (h : k' ≠ k) :
    lookupA (updateA m k f) k' = lookupA m k' := by
  induction m with
  | nil => simp [updateA, lookupA]
  | cons p rest ih =>
    by_cases hp : p.1 = k
    · simp [updateA, hp, lookupA, Ne.symm h]
    · simp [updateA, hp, lookupA, ih]

theorem insertA_eq_self {κ α : Type} [DecidableEq κ]
    {m : List (κ × α)} {k : κ} {v : α} (h : lookupA m k = some v) :
    insertA m k v = m := by
  induction m with
  | nil => simp [lookupA] at h
  | cons p rest ih =>
    obtain ⟨pk, pv⟩ := p
    by_cases hp : pk = k
    · subst hp
      simp only [lookupA, if_pos rfl] at h
      injection h with h
      subst h
      simp [insertA]
    · simp only [lookupA, if_neg hp] at h
      simp [insertA, hp, ih h]

theorem insertA_of_lookup_none {κ α : Type} [DecidableEq κ]
    {m : List (κ × α)} {k : κ} (v : α) (h : lookupA m k = none) :
    insertA m k v = m ++ [(k, v)] := by
  induction m with
  | nil => simp [insertA]
  | cons p rest ih =>
    by_cases hp : p.1 = k
    · simp [lookupA, hp] at h
    · simp [lookupA, hp] at h
      simp [insertA, hp, ih h]

theorem lookupA_append_left {κ α : Type} [DecidableEq κ]
    {m : List (κ × α)} (m' : List (κ × α)) {k : κ} {v : α}
    (h : lookupA m k = some v) : lookupA (m ++ m') k = some v := by
  induction m with
  | nil => simp [lookupA] at h
  | cons p rest ih =>
    by_cases hp : p.1 = k
    · simp [lookupA, hp] at h ⊢
      exact h
    · simp [lookupA, hp] at h ⊢
      exact ih h

theorem lookupA_append_right {κ α : Type} [DecidableEq κ]
    {m : List (κ × α)} (m' : List (κ × α)) {k : κ}
    (h : lookupA m k = none) : lookupA (m ++ m') k = lookupA m' k := by
  induction m with
  | nil => simp
  | cons p rest ih =>
    by_cases hp : p.1 = k
    · simp [lookupA, hp] at h
    · simp [lookupA, hp] at h ⊢
      exact ih h

theorem firstSome_eq_none_iff {α β : Type} (l : List α) (f : α → Option β) :
    firstSome l f = none ↔ ∀ x ∈ l, f x = none := by
  induction l with
  | nil => simp [firstSome]
  | cons x xs ih =>
    unfold firstSome
    cases hx : f x with
    | some e =>
      constructor
      · intro h
        simp at h
      · intro h
        have hx' := h x (by simp)
        rw [hx] at hx'
        simp at hx'
    | none =>
      rw [ih]
      constructor
      · intro h y hy
        rcases List.mem_cons.mp hy with hy | hy
        · rw [hy]
          exact hx
        · exact h y hy
      · intro h y hy
        exact h y (List.mem_cons_of_mem x hy)

theorem firstSome_eq_some_mem {α β : Type} {l : List α} {f : α → Option β}
    {e : β} (h : firstSome l f = some e) : ∃ x ∈ l, f x = some e := by
  induction l with
  | nil => simp [firstSome] at h
  | cons x xs ih =>
    unfold firstSome at h
    cases hx : f x with
    | some e' =>
      simp [hx] at h
      exact ⟨x, by simp, by simp [hx, h]⟩
    | none =>
      simp [hx] at h
      obtain ⟨y, hy, hfy⟩ := ih h
      exact ⟨y, by simp [hy], hfy⟩

theorem firstSome_append_of_none {α β : Type} {l : List α} (l' : List α)
    {f : α → Option β} (h : ∀ x ∈ l, f x = none) :
    firstSome (l ++ l') f = firstSome l' f := by
  induction l with
  | nil => simp
  | cons x xs ih =>
    have hx := h x (by simp)
    simp [firstSome, hx]
    exact ih (fun y hy => h y (by simp [hy]))

theorem firstSome_congr {α β : Type} {l : List α} {f g : α → Option β}
    (h : ∀ x ∈ l, f x = g x) : firstSome l f = firstSome l g := by
  induction l with
  | nil => rfl
  | cons x xs ih =>
    unfold firstSome
    rw [h x (by simp), ih (fun y hy => h y (by simp [hy]))]

theorem firstSome_updateA {α : Type} [DecidableEq Nat]
    (l : List (Nat × α)) (k : Nat) (g : α → α) (F : Nat × α → Option PropError)
    (hall : ∀ p ∈ l, F p = none) :
    firstSome (updateA l k g) F =
      match lookupA l k with
      | some v => F (k, g v)
      | none => none := by
  induction l with
  | nil => simp [updateA, lookupA, firstSome]
  | cons p rest ih =>
    by_cases hp : p.1 = k
    · subst hp
      simp [updateA, lookupA, firstSome]
      cases hF : F (p.1, g p.2) with
      | some e => simp
      | none =>
        simp
        exact (firstSome_eq_none_iff rest F).mpr (fun y hy => hall y (by simp [hy]))
    · have hFp := hall p (by simp)
      simp [updateA, hp, lookupA, firstSome, hFp]
      exact ih (fun y hy => hall y (by simp [hy]))

/-! Small facts about the emotional engine used by several claims. -/

theorem evalEmotion_goals (s : EmotionalState) (u d L : Rat) :
    (evalEmotion s u d L).goals = s.goals := by
  unfold evalEmotion
  split <;> rfl

theorem evalEmotion_gain (s : EmotionalState) (u d L : Rat) :
    (evalEmotion s u d L).gain = s.gain := by
  unfold evalEmotion
  split <;> rfl

theorem evalEmotion_delta_zero (s : EmotionalState) (u L : Rat) :
    evalEmotion s u 0 L = s := by
  unfold evalEmotion
  rw [if_neg]
  simp [ratAbs]

/-- The squashing map at gain 1 sends every rational strictly inside
(-1, 1). -/
theorem squash_one_bounds (x : Rat) : -1 < squash 1 x ∧ squash 1 x < 1 := by
  unfold squash
  by_cases h : (0:Rat) ≤ x
  · rw [if_pos h]
    have h1 : (0:Rat) < 1 * x + 1 := by linarith
    constructor
    · have h0 : (0:Rat) ≤ 1 * x / (1 * x + 1) := div_nonneg (by linarith) (le_of_lt h1)
      linarith
    · rw [div_lt_one h1]
      linarith
  · rw [if_neg h]
    push_neg at h
    have h1 : 1 * x - 1 < 0 := by linarith
    constructor
    · rw [lt_div_iff_of_neg h1]
      nlinarith
    · rw [div_lt_iff_of_neg h1]
      nlinarith

/-- C1: the spec promises that every mutation-API operation, in particular
`record_event` carrying an `AppraisalTrigger` whose belief has any lengths of
`affected_goal_names` and `goal_congruences`, completes without error or
panic. The code violates this: on a store holding a character with goal "g",
recording an event whose appraisal belief names "g" but has an empty
congruence list hits the `goal_congruences[i]` index panic (modelled as
`none`). -/
theorem C1_record_event_panics : mvPanic.record_event evPanic = none := by
  decide

/-- C3: for every emotional state with gain 1 (all states reachable from
`EmotionalState::new` by `add_goal`/`appraise`/`decay`, none of which touch
the gain), `get_pad` returns the squash of the intensity-weighted PAD sums and
each component lies strictly inside (-1, 1). -/
theorem C3_pad_strictly_bounded (s : EmotionalState) (h : s.gain = 1) :
    (-1 < (s.get_pad).1 ∧ (s.get_pad).1 < 1) ∧
    (-1 < (s.get_pad).2.1 ∧ (s.get_pad).2.1 < 1) ∧
    (-1 < (s.get_pad).2.2 ∧ (s.get_pad).2.2 < 1) ∧
    s.get_pad = (squash s.gain (padSum s.emotions).1,
      squash s.gain (padSum s.emotions).2.1,
      squash s.gain (padSum s.emotions).2.2) := by
  simp only [EmotionalState.get_pad, h]
  exact ⟨squash_one_bounds _, squash_one_bounds _, squash_one_bounds _, trivial⟩

/-- Witness for C3 at the fresh emotional state. -/
theorem C3_pad_strictly_bounded_witness :
    (-1 < (EmotionalState.new.get_pad).1 ∧ (EmotionalState.new.get_pad).1 < 1) ∧
    (-1 < (EmotionalState.new.get_pad).2.1 ∧ (EmotionalState.new.get_pad).2.1 < 1) ∧
    (-1 < (EmotionalState.new.get_pad).2.2 ∧ (EmotionalState.new.get_pad).2.2 < 1) ∧
    EmotionalState.new.get_pad =
      (squash EmotionalState.new.gain (padSum EmotionalState.new.emotions).1,
       squash EmotionalState.new.gain (padSum EmotionalState.new.emotions).2.1,
       squash EmotionalState.new.gain (padSum EmotionalState.new.emotions).2.2) :=
  C3_pad_strictly_bounded EmotionalState.new rfl

/-- C4: appraising the incremental belief (congruence 1, likelihood 1)
against a non-maintenance goal at likelihood 0.5 drives the stored likelihood
to exactly 1 on the first appraisal; once a non-maintenance goal sits at
likelihood 1 the delta is forced to 0, every later appraisal of the same
belief leaves the state completely unchanged, and in particular no emotion is
emitted, because the emitted intensity |utility * delta| is 0. -/
theorem C4_likelihood_saturation (s : EmotionalState) (nm : String) (g : Goal)
    (hg : lookupA s.goals nm = some g) (hm : g.is_maintenance = false)
    (hl : g.likelihood = 1/2) :
    (∃ s1, s.appraise (beliefSat nm) = some s1 ∧
      lookupA s1.goals nm = some { g with likelihood := 1 }) ∧
    (∀ (t : EmotionalState) (g' : Goal), lookupA t.goals nm = some g' →
      g'.is_maintenance = false → g'.likelihood = 1 →
      t.appraise (beliefSat nm) = some t) := by
  constructor
  · have hcalc : calcDelta g 1 1 true = ({ g with likelihood := 1 }, 1/2) := by
      unfold calcDelta
      rw [if_neg]
      · norm_num [ratMin, ratMax, hl]
      · simp only [hm, hl]
        norm_num
    have hcol : appraiseCollect (beliefSat nm) [nm] 0 s.goals =
        some (insertA s.goals nm { g with likelihood := 1 },
          [(g.utility, 1/2, 1)]) := by
      simp [appraiseCollect, hg, beliefSat, hcalc]
    have happ : s.appraise (beliefSat nm) =
        some (evalEmotion
          { s with goals := insertA s.goals nm { g with likelihood := 1 } }
          g.utility (1/2) 1) := by
      unfold EmotionalState.appraise
      have hb : (beliefSat nm).affected_goal_names = [nm] := rfl
      rw [hb, hcol]
      rfl
    refine ⟨_, happ, ?_⟩
    rw [evalEmotion_goals]
    exact lookupA_insertA_self _ _ _
  · intro t g' hg' hm' hl'
    have hcalc0 : calcDelta g' 1 1 true = (g', 0) := by
      unfold calcDelta
      rw [if_pos]
      exact ⟨by simp [hm'], Or.inl (by rw [hl'])⟩
    have hcol0 : appraiseCollect (beliefSat nm) [nm] 0 t.goals =
        some (t.goals, [(g'.utility, 0, g'.likelihood)]) := by
      simp [appraiseCollect, hg', beliefSat, hcalc0, insertA_eq_self hg']
    unfold EmotionalState.appraise
    have hb : (beliefSat nm).affected_goal_names = [nm] := rfl
    rw [hb, hcol0]
    show some (evalEmotion { t with goals := t.goals } g'.utility 0 g'.likelihood) = some t
    rw [show ({ t with goals := t.goals } : EmotionalState) = t from rfl,
      evalEmotion_delta_zero]

/-- Witness for C4 at a one-goal state. -/
theorem C4_likelihood_saturation_witness :
    (∃ s1, (⟨[], [("g", Goal.new "g" 1 false)], 1⟩ : EmotionalState).appraise
        (beliefSat "g") = some s1 ∧
      lookupA s1.goals "g" = some { Goal.new "g" 1 false with likelihood := 1 }) ∧
    (∀ (t : EmotionalState) (g' : Goal), lookupA t.goals "g" = some g' →
      g'.is_maintenance = false → g'.likelihood = 1 →
      t.appraise (beliefSat "g") = some t) :=
  C4_likelihood_saturation _ "g" _ (by decide) rfl rfl

/-- C9 counterexample: appraising `beliefNeg` against `stNeg` leaves the goal
at the strictly negative likelihood -2⁻⁵³, and yet a Distress emotion is
emitted, because |−2⁻⁵³| is below the `f64::EPSILON` tolerance of the
"likelihood = 0" branch. -/
theorem C9_negative_likelihood_counterexample :
    stNeg.appraise beliefNeg =
      some ⟨[⟨.distress, 1/2 + 1/2^53⟩], [("g", ⟨"g", 1, -(1/2^53), false⟩)], 1⟩ ∧
    (-(1/2^53) : Rat) < 0 ∧
    ([(⟨.distress, 1/2 + 1/2^53⟩ : Emotion)] : List Emotion) ≠ [] := by
  refine ⟨by decide, by decide, by decide⟩

/-- C9 amended: no emotion of any type is emitted when the resulting
likelihood is at most -EPSILON; the emission branches cover (0, 1), the
EPSILON-neighbourhood of 1 and the EPSILON-neighbourhood of 0, so a strictly
negative likelihood within EPSILON of 0 can still emit. -/
theorem C9_negative_likelihood_amended (s : EmotionalState) (u d L : Rat)
    (h : L ≤ -epsF64) : evalEmotion s u d L = s := by
  have heps : (0:Rat) < epsF64 := by norm_num [epsF64]
  have hL : L < 0 := by linarith
  have h1 : ¬ (0 < L ∧ L < 1) := by
    rintro ⟨h1, _⟩
    linarith
  have h2 : ¬ ratAbs (L - 1) < epsF64 := by
    simp only [ratAbs]
    rw [if_pos (show L - 1 < 0 by linarith)]
    intro hcon
    linarith
  have h3 : ¬ ratAbs L < epsF64 := by
    simp only [ratAbs]
    rw [if_pos hL]
    intro hcon
    linarith
  have htypes : emotionTypesFor u d L = [] := by
    unfold emotionTypesFor
    rw [if_neg h1, if_neg h2, if_neg h3]
  unfold evalEmotion
  split
  · unfold evalEmotionList
    rw [htypes]
    rfl
  · rfl

/-- Witness for the amended C9 at likelihood -1. -/
theorem C9_negative_likelihood_amended_witness :
    evalEmotion stNeg 1 1 (-1) = stNeg :=
  C9_negative_likelihood_amended stNeg 1 1 (-1) (by norm_num [epsF64])

/-- C10: a belief all of whose affected goal names are absent from the goal
map leaves the emotional state completely unchanged under `appraise`, and an
absent name is skipped individually, advancing only the positional index, so
present names keep their own positional congruence. -/
theorem C10_absent_goals_noop (s : EmotionalState) (b : Belief)
    (h : ∀ n ∈ b.affected_goal_names, lookupA s.goals n = none) :
    s.appraise b = some s ∧
    (∀ (goals : List (String × Goal)) (n : String) (rest : List String) (i : Nat),
      lookupA goals n = none →
      appraiseCollect b (n :: rest) i goals = appraiseCollect b rest (i + 1) goals) := by
  constructor
  · have key : ∀ (names : List String) (i : Nat),
        (∀ n ∈ names, lookupA s.goals n = none) →
        appraiseCollect b names i s.goals = some (s.goals, []) := by
      intro names
      induction names with
      | nil => intro i _; rfl
      | cons n rest ih =>
        intro i hn
        have hnone := hn n (by simp)
        simp only [appraiseCollect, hnone]
        exact ih (i + 1) (fun m hm => hn m (List.mem_cons_of_mem n hm))
    unfold EmotionalState.appraise
    rw [key b.affected_goal_names 0 h]
    rfl
  · intro goals n rest i hn
    simp only [appraiseCollect, hn]

/-- Witness for C10 on the fresh state and the short belief. -/
theorem C10_absent_goals_noop_witness :
    EmotionalState.new.appraise beliefShort = some EmotionalState.new ∧
    (∀ (goals : List (String × Goal)) (n : String) (rest : List String) (i : Nat),
      lookupA goals n = none →
      appraiseCollect beliefShort (n :: rest) i goals =
        appraiseCollect beliefShort rest (i + 1) goals) :=
  C10_absent_goals_noop EmotionalState.new beliefShort (by decide)

/-! Frame lemmas: the effect interpreter only ever touches the character
map. -/

theorem applyEffect_frame {mv mv' : Multiverse} {eff : EventEffect}
    (h : applyEffect mv eff = some mv') :
    mv'.timelines = mv.timelines ∧ mv'.events = mv.events ∧
    mv'.memories = mv.memories ∧ mv'.next_event_id = mv.next_event_id := by
  cases eff with
  | appraisalTrigger c b =>
    simp only [applyEffect] at h
    cases hc : lookupA mv.characters c with
    | none =>
      rw [hc] at h
      injection h with h
      subst h
      exact ⟨rfl, rfl, rfl, rfl⟩
    | some ch =>
      rw [hc] at h
      dsimp only at h
      cases ha : ch.emotional_state.appraise b with
      | none =>
        rw [ha] at h
        simp at h
      | some es =>
        rw [ha] at h
        injection h with h
        subst h
        exact ⟨rfl, rfl, rfl, rfl⟩
  | characterDeath c =>
    injection h with h
    subst h
    exact ⟨rfl, rfl, rfl, rfl⟩
  | characterResurrection c m =>
    injection h with h
    subst h
    exact ⟨rfl, rfl, rfl, rfl⟩
  | relationshipChange c1 c2 st =>
    injection h with h
    subst h
    exact ⟨rfl, rfl, rfl, rfl⟩
  | knowledgeGained c f =>
    injection h with h
    subst h
    exact ⟨rfl, rfl, rfl, rfl⟩
  | memoryTransfer m f t =>
    injection h with h
    subst h
    exact ⟨rfl, rfl, rfl, rfl⟩
  | timelineBranch t =>
    injection h with h
    subst h
    exact ⟨rfl, rfl, rfl, rfl⟩
  | addGoal c g =>
    injection h with h
    subst h
    exact ⟨rfl, rfl, rfl, rfl⟩

theorem applyEffects_frame (effects : List EventEffect) :
    ∀ {mv mv' : Multiverse}, applyEffects mv effects = some mv' →
    mv'.timelines = mv.timelines ∧ mv'.events = mv.events ∧
    mv'.memories = mv.memories ∧ mv'.next_event_id = mv.next_event_id := by
  induction effects with
  | nil =>
    intro mv mv' h
    unfold applyEffects at h
    rw [List.foldlM_nil] at h
    injection h with h
    subst h
    exact ⟨rfl, rfl, rfl, rfl⟩
  | cons eff rest ih =>
    intro mv mv' h
    unfold applyEffects at h
    rw [List.foldlM_cons] at h
    cases h1 : applyEffect mv eff with
    | none =>
      rw [h1] at h
      injection h
    | some mv1 =>
      rw [h1] at h
      have h2 : applyEffects mv1 rest = some mv' := h
      obtain ⟨t1, e1, m1, n1⟩ := applyEffect_frame h1
      obtain ⟨t2, e2, m2, n2⟩ := ih h2
      exact ⟨t2.trans t1, e2.trans e1, m2.trans m1, n2.trans n1⟩

theorem recordIntermediate_next (mv : Multiverse) (e : Event) :
    (recordIntermediate mv e).next_event_id = mv.next_event_id + 1 := by
  unfold recordIntermediate
  cases h : lookupA mv.timelines e.timeline <;> simp [h]

theorem recordIntermediate_timelines (mv : Multiverse) (e : Event) :
    (recordIntermediate mv e).timelines =
      match lookupA mv.timelines e.timeline with
      | some _ => updateA mv.timelines e.timeline
          (fun t => { t with events := t.events ++ [mv.next_event_id] })
      | none => mv.timelines := by
  unfold recordIntermediate
  cases h : lookupA mv.timelines e.timeline <;> simp [h]

/-- C5: `record_event` returns the fresh id `next_event_id` (overwriting the
input id), bumps the per-store counter so later ids are strictly larger,
stores the event under the fresh id, appends the id to the named timeline's
event list exactly when that timeline exists (leaving every other timeline
untouched), and the returned store is the effect interpreter's output on the
intermediate store with the event map extended. -/
theorem C5_record_event_spec (mv : Multiverse) (e : Event)
    (p : Nat × Multiverse) (h : mv.record_event e = some p) :
    p.1 = mv.next_event_id ∧
    p.2.next_event_id = mv.next_event_id + 1 ∧
    lookupA p.2.events p.1 = some { e with id := p.1 } ∧
    ((lookupA mv.timelines e.timeline).isSome →
      lookupA p.2.timelines e.timeline =
        (lookupA mv.timelines e.timeline).map
          (fun t => { t with events := t.events ++ [p.1] })) ∧
    ((lookupA mv.timelines e.timeline).isNone → p.2.timelines = mv.timelines) ∧
    (∀ tl, tl ≠ e.timeline → lookupA p.2.timelines tl = lookupA mv.timelines tl) ∧
    (∃ mv3, applyEffects (recordIntermediate mv e) e.effects = some mv3 ∧
      p.2 = { mv3 with events := insertA mv3.events p.1 { e with id := p.1 } }) := by
  simp only [Multiverse.record_event] at h
  cases happ : applyEffects (recordIntermediate mv e) e.effects with
  | none =>
    rw [happ] at h
    simp at h
  | some mv3 =>
    rw [happ] at h
    injection h with h
    subst h
    obtain ⟨ht, hev, hmem, hnext⟩ := applyEffects_frame e.effects happ
    refine ⟨rfl, ?_, ?_, ?_, ?_, ?_, ⟨mv3, rfl, rfl⟩⟩
    · show mv3.next_event_id = mv.next_event_id + 1
      rw [hnext, recordIntermediate_next]
    · exact lookupA_insertA_self _ _ _
    · intro hs
      show lookupA mv3.timelines e.timeline = _
      rw [ht, recordIntermediate_timelines]
      cases htl : lookupA mv.timelines e.timeline with
      | none => rw [htl] at hs; simp at hs
      | some t => simp [lookupA_updateA_self, htl]
    · intro hn
      show mv3.timelines = mv.timelines
      rw [ht, recordIntermediate_timelines]
      cases htl : lookupA mv.timelines e.timeline with
      | none => rfl
      | some t => rw [htl] at hn; simp at hn
    · intro tl htl
      show lookupA mv3.timelines tl = _
      rw [ht, recordIntermediate_timelines]
      cases hl : lookupA mv.timelines e.timeline with
      | none => rfl
      | some t => exact lookupA_updateA_ne _ _ _ _ htl

/-- Witness for C5 on recording an effect-free event in a fresh store. -/
theorem C5_record_event_spec_witness :
    recSimple.1 = Multiverse.new.next_event_id ∧
    recSimple.2.next_event_id = Multiverse.new.next_event_id + 1 ∧
    lookupA recSimple.2.events recSimple.1 = some { evSimple with id := recSimple.1 } ∧
    ((lookupA Multiverse.new.timelines evSimple.timeline).isSome →
      lookupA recSimple.2.timelines evSimple.timeline =
        (lookupA Multiverse.new.timelines evSimple.timeline).map
          (fun t => { t with events := t.events ++ [recSimple.1] })) ∧
    ((lookupA Multiverse.new.timelines evSimple.timeline).isNone →
      recSimple.2.timelines = Multiverse.new.timelines) ∧
    (∀ tl, tl ≠ evSimple.timeline →
      lookupA recSimple.2.timelines tl = lookupA Multiverse.new.timelines tl) ∧
    (∃ mv3, applyEffects (recordIntermediate Multiverse.new evSimple) evSimple.effects = some mv3 ∧
      recSimple.2 = { mv3 with events := insertA mv3.events recSimple.1 { evSimple with id := recSimple.1 } }) :=
  C5_record_event_spec Multiverse.new evSimple recSimple (by decide)

/-- C6: applying a `RelationshipChange {c1, c2, state}` effect on a store
where both characters exist sets c1's entry for c2 and c2's entry for c1 to
`state`, and leaves every other character (hence their relationship map)
unchanged. -/
theorem C6_relationship_symmetry (mv : Multiverse) (c1 c2 : Nat)
    (st : RelationshipState) (ch1 ch2 : Character)
    (h1 : lookupA mv.characters c1 = some ch1)
    (h2 : lookupA mv.characters c2 = some ch2) :
    ∃ mv', applyEffect mv (.relationshipChange c1 c2 st) = some mv' ∧
      (∃ d1, lookupA mv'.characters c1 = some d1 ∧
        lookupA d1.relationships c2 = some st) ∧
      (∃ d2, lookupA mv'.characters c2 = some d2 ∧
        lookupA d2.relationships c1 = some st) ∧
      (∀ c, c ≠ c1 → c ≠ c2 → lookupA mv'.characters c = lookupA mv.characters c) := by
  refine ⟨_, rfl, ?_, ?_, ?_⟩
  · show ∃ d1, lookupA (updateA (updateA mv.characters c1 _) c2 _) c1 = some d1 ∧ _
    by_cases hc : c1 = c2
    · subst hc
      rw [lookupA_updateA_self, lookupA_updateA_self, h1]
      exact ⟨_, rfl, lookupA_insertA_self _ _ _⟩
    · rw [lookupA_updateA_ne _ _ _ _ hc, lookupA_updateA_self, h1]
      exact ⟨_, rfl, lookupA_insertA_self _ _ _⟩
  · show ∃ d2, lookupA (updateA (updateA mv.characters c1 _) c2 _) c2 = some d2 ∧ _
    rw [lookupA_updateA_self]
    by_cases hc : c2 = c1
    · subst hc
      rw [lookupA_updateA_self, h1]
      exact ⟨_, rfl, lookupA_insertA_self _ _ _⟩
    · rw [lookupA_updateA_ne _ _ _ _ hc, h2]
      exact ⟨_, rfl, lookupA_insertA_self _ _ _⟩
  · intro c hne1 hne2
    show lookupA (updateA (updateA mv.characters c1 _) c2 _) c = _
    rw [lookupA_updateA_ne _ _ _ _ hne2, lookupA_updateA_ne _ _ _ _ hne1]

theorem lookupA_mem {κ α : Type} [DecidableEq κ]
    {m : List (κ × α)} {k : κ} {v : α} (h : lookupA m k = some v) :
    (k, v) ∈ m := by
  induction m with
  | nil => simp [lookupA] at h
  | cons p rest ih =>
    obtain ⟨pk, pv⟩ := p
    by_cases hp : pk = k
    · subst hp
      simp only [lookupA, if_pos rfl] at h
      injection h with h
      subst h
      simp
    · simp only [lookupA, if_neg hp] at h
      exact List.mem_cons_of_mem _ (ih h)

theorem firstSome_singleton {α β : Type} (x : α) (f : α → Option β) :
    firstSome [x] f = f x := by
  unfold firstSome
  cases f x <;> simp [firstSome]

/-- C7: starting from any store that passes Memory Consistency and holds
event E, creating a witnessed memory of E for character C and adding it to
C's memory set passes Memory Consistency exactly when C is among E's
participants; otherwise the check fails with the error naming C and E. -/
theorem C7_witnessed_memory_validity (mv : Multiverse) (E T C : Nat)
    (ev : Event) (c : Character)
    (hev : lookupA mv.events E = some ev)
    (hc : lookupA mv.characters C = some c)
    (hfresh : lookupA mv.memories mv.next_memory_id = none)
    (hok : prop_memory_consistency mv = none) :
    (prop_memory_consistency (addWitnessedMemory mv E T C) = none ↔
      C ∈ ev.participants) ∧
    (C ∉ ev.participants →
      prop_memory_consistency (addWitnessedMemory mv E T C) =
        some (.witnessNotPresent C E)) := by
  set mid := mv.next_memory_id with hmid
  have hmv2chars : (addWitnessedMemory mv E T C).characters =
      updateA mv.characters C
        (fun ch => { ch with memories := insertSet ch.memories mid }) := rfl
  have hmv2mem : (addWitnessedMemory mv E T C).memories =
      mv.memories ++ [(mid, ⟨mid, E, T, .witnessed C, 1⟩)] := by
    show insertA mv.memories mid _ = _
    exact insertA_of_lookup_none _ hfresh
  have hmv2ev : (addWitnessedMemory mv E T C).events = mv.events := rfl
  -- every memory check that passed on the old store still passes
  have hpres : ∀ cid m, memoryCheck mv cid m = none →
      memoryCheck (addWitnessedMemory mv E T C) cid m = none := by
    intro cid m hnone
    unfold memoryCheck at hnone ⊢
    cases hm : lookupA mv.memories m with
    | none => simp [hm] at hnone
    | some mm =>
      simp only [hm] at hnone
      rw [hmv2mem]
      simp only [lookupA_append_left _ hm]
      cases hprov : mm.provenance with
      | witnessed w =>
        simp only [hprov] at hnone ⊢
        simp only [hmv2ev]
        exact hnone
      | traded o a => simp only [hprov]
      | forged f =>
        simp only [hprov] at hnone ⊢
        exact hnone
      | compound sources =>
        simp only [hprov] at hnone ⊢
        cases hfind : sources.find? (fun s => (lookupA mv.memories s).isNone) with
        | some s => simp [hfind] at hnone
        | none =>
          have hall := List.find?_eq_none.mp hfind
          have hnone2 : sources.find? (fun s =>
              (lookupA (mv.memories ++
                [(mid, (⟨mid, E, T, .witnessed C, 1⟩ : Memory))]) s).isNone) = none := by
            rw [List.find?_eq_none]
            intro s hs
            have hsome := hall s hs
            cases hls : lookupA mv.memories s with
            | none => rw [hls] at hsome; simp at hsome
            | some val => simp [lookupA_append_left _ hls]
          simp only [hnone2]
  -- each old (character, memory) pair still passes
  have hallnone : ∀ p ∈ mv.characters,
      firstSome p.2.memories
        (fun m => memoryCheck (addWitnessedMemory mv E T C) p.1 m) = none := by
    intro p hp
    have hold := (firstSome_eq_none_iff _ _).mp hok p hp
    rw [firstSome_eq_none_iff] at hold ⊢
    intro m hmem
    exact hpres p.1 m (hold m hmem)
  -- every memory C already owns passes the old check
  have holdC : ∀ m ∈ c.memories, memoryCheck mv C m = none := by
    have h1 := (firstSome_eq_none_iff _ _).mp hok (C, c) (lookupA_mem hc)
    exact (firstSome_eq_none_iff _ _).mp h1
  -- the new memory id is not already owned by C
  have hmidnot : mid ∉ c.memories := by
    intro hin
    have hbad := holdC mid hin
    unfold memoryCheck at hbad
    simp [hfresh] at hbad
  -- the check on the new pair
  have hnew : memoryCheck (addWitnessedMemory mv E T C) C mid =
      if C ∈ ev.participants then none else some (.witnessNotPresent C E) := by
    unfold memoryCheck
    rw [hmv2mem]
    rw [lookupA_append_right _ hfresh]
    simp [lookupA, hmv2ev, hev]
  -- assemble the full check
  have hmain : prop_memory_consistency (addWitnessedMemory mv E T C) =
      if C ∈ ev.participants then none else some (.witnessNotPresent C E) := by
    unfold prop_memory_consistency
    rw [hmv2chars, firstSome_updateA _ _ _ _ hallnone, hc]
    show firstSome (insertSet c.memories mid)
      (fun m => memoryCheck (addWitnessedMemory mv E T C) C m) = _
    rw [show insertSet c.memories mid = c.memories ++ [mid] from by
      simp [insertSet, hmidnot]]
    rw [firstSome_append_of_none _ (fun m hm => hpres C m (holdC m hm))]
    rw [firstSome_singleton, hnew]
  constructor
  · rw [hmain]
    by_cases hpart : C ∈ ev.participants
    · simp [hpart]
    · simp [hpart]
  · intro hpart
    rw [hmain, if_neg hpart]

/-- Witness for C7 on the one-character store where A witnessed event 0. -/
theorem C7_witnessed_memory_validity_witness :
    (prop_memory_consistency (addWitnessedMemory mvWitness 0 0 0) = none ↔
      (0 : Nat) ∈ evWitness.participants) ∧
    ((0 : Nat) ∉ evWitness.participants →
      prop_memory_consistency (addWitnessedMemory mvWitness 0 0 0) =
        some (.witnessNotPresent 0 0)) :=
  C7_witnessed_memory_validity mvWitness 0 0 0 evWitness
    ⟨0, "A", 0, 0, [], [], true, [], [], EmotionalState.new⟩
    (by decide) (by decide) (by decide) (by decide)

/-- Witness for C6 on the two-character store. -/
theorem C6_relationship_symmetry_witness :
    ∃ mv', applyEffect mvTwo (.relationshipChange 0 1 .allied) = some mv' ∧
      (∃ d1, lookupA mv'.characters 0 = some d1 ∧
        lookupA d1.relationships 1 = some .allied) ∧
      (∃ d2, lookupA mv'.characters 1 = some d2 ∧
        lookupA d2.relationships 0 = some .allied) ∧
      (∀ c, c ≠ 0 → c ≠ 1 → lookupA mv'.characters c = lookupA mvTwo.characters c) :=
  C6_relationship_symmetry mvTwo 0 1 .allied chA chB (by decide) (by decide)

/-- C8 counterexample: in `mvAbsent`, character 0 was created directly in the
branched timeline 1, participates in event 0 of that timeline, and is absent
from the parent's computed liveness table (the parent's table is empty), yet
the Death Finality check passes, because that same event resurrects them —
so the claim's unconditional "the check fails naming them" is false. -/
theorem C8_defaults_counterexample :
    deathProcessTimelines mvAbsent [] (sortedTimelines mvAbsent) =
      .ok [(0, []), (1, [(0, true)])] ∧
    (∃ t, lookupA mvAbsent.timelines 1 = some t ∧ t.parent = some 0 ∧
      t.events = [0] ∧ (0:Nat) ∈ t.characters) ∧
    (∃ e, lookupA mvAbsent.events 0 = some e ∧ (0:Nat) ∈ e.participants ∧
      e.timeline = 1) ∧
    lookupA ([] : List (Nat × Bool)) 0 = none ∧
    prop_death_finality mvAbsent = none := by
  refine ⟨rfl, ⟨_, rfl, rfl, rfl, by decide⟩, ⟨_, rfl, by decide, rfl⟩, rfl, by decide⟩

/-- C8 amended: during the Death Finality replay a participant absent from
the liveness table is treated as dead, and the participant check then fails,
naming a dead participant and the event, unless the event itself carries a
resurrection for them; whereas the final stored-flag comparison treats a
character absent from their current timeline's table as alive — the two
lookups use opposite defaults. -/
theorem C8_defaults_amended :
    (∀ (table : List (Nat × Bool)) (cid : Nat), lookupA table cid = none →
      deathParticipantAlive table cid = false ∧
      deathExpectedAlive table cid = true) ∧
    (∀ (table : List (Nat × Bool)) (ev : Event) (p : Nat),
      p ∈ ev.participants → lookupA table p = none →
      ev.effects.any (isResurrectionOf p) = false →
      ∃ q, q ∈ ev.participants ∧ deathParticipantAlive table q = false ∧
        deathCheckParticipants table ev = some (.deadParticipant q ev.id)) ∧
    (∀ (state : List (Nat × List (Nat × Bool))) (p : Nat × Character)
      (table : List (Nat × Bool)),
      lookupA state p.2.current_timeline = some table →
      lookupA table p.2.id = none →
      (deathCharCheck state p = none ↔ p.2.alive = true)) := by
  refine ⟨?_, ?_, ?_⟩
  · intro table cid h
    unfold deathParticipantAlive deathExpectedAlive
    rw [h]
    exact ⟨rfl, rfl⟩
  · intro table ev p hp hnone hres
    have halive : deathParticipantAlive table p = false := by
      unfold deathParticipantAlive
      rw [hnone]
      rfl
    have hfp : deathParticipantCheck table ev p = some (.deadParticipant p ev.id) := by
      unfold deathParticipantCheck
      rw [halive, hres]
      rfl
    cases hfs : deathCheckParticipants table ev with
    | none =>
      exfalso
      unfold deathCheckParticipants at hfs
      have := (firstSome_eq_none_iff _ _).mp hfs p hp
      rw [hfp] at this
      simp at this
    | some e =>
      unfold deathCheckParticipants at hfs
      obtain ⟨q, hq, hfq⟩ := firstSome_eq_some_mem hfs
      by_cases hal : deathParticipantAlive table q
      · unfold deathParticipantCheck at hfq
        rw [if_pos hal] at hfq
        simp at hfq
      · by_cases hr : ev.effects.any (isResurrectionOf q)
        · unfold deathParticipantCheck at hfq
          rw [if_neg hal, if_pos hr] at hfq
          simp at hfq
        · unfold deathParticipantCheck at hfq
          rw [if_neg hal, if_neg hr] at hfq
          injection hfq with hfq
          refine ⟨q, hq, by simpa using hal, ?_⟩
          rw [← hfq]
  · intro state p table hstate htable
    unfold deathCharCheck
    simp only [hstate]
    have hexp : deathExpectedAlive table p.2.id = true := by
      unfold deathExpectedAlive
      rw [htable]
      rfl
    rw [hexp]
    by_cases ha : p.2.alive = true
    · simp [ha]
    · simp [ha]

/-- Witness for the amended C8: defaults on the empty table, the participant
check on an event whose participant 3 is table-absent, and the final
comparison on a character absent from their timeline's table. -/
theorem C8_defaults_amended_witness :
    (deathParticipantAlive [] 7 = false ∧ deathExpectedAlive [] 7 = true) ∧
    (∃ q, q ∈ evDoom.participants ∧ deathParticipantAlive [] q = false ∧
      deathCheckParticipants [] evDoom = some (.deadParticipant q evDoom.id)) ∧
    (deathCharCheck [(3, [])] (9, chW) = none ↔ chW.alive = true) :=
  ⟨C8_defaults_amended.1 [] 7 rfl,
   C8_defaults_amended.2.1 [] evDoom 3 (by decide) rfl (by decide),
   C8_defaults_amended.2.2 [(3, [])] (9, chW) [] (by decide) rfl⟩

/-! Equivalence of `prop_death_finality` with the Boolean spec transcription
`specDeathFinality` (amended C2). -/

theorem deathParticipantCheck_none_iff (table : List (Nat × Bool)) (ev : Event)
    (p : Nat) :
    deathParticipantCheck table ev p = none ↔
      (deathParticipantAlive table p || ev.effects.any (isResurrectionOf p)) = true := by
  unfold deathParticipantCheck
  by_cases h1 : deathParticipantAlive table p
  · simp [h1]
  · by_cases h2 : ev.effects.any (isResurrectionOf p)
    · simp [h1, h2]
    · simp [h1, h2]

theorem deathCheckParticipants_none_iff (table : List (Nat × Bool)) (ev : Event) :
    deathCheckParticipants table ev = none ↔ specParticipantsOk table ev = true := by
  unfold deathCheckParticipants specParticipantsOk
  rw [firstSome_eq_none_iff, List.all_eq_true]
  constructor
  · intro h p hp
    exact (deathParticipantCheck_none_iff _ _ _).mp (h p hp)
  · intro h p hp
    exact (deathParticipantCheck_none_iff _ _ _).mpr (h p hp)

theorem deathApplyEffects_spec (effects : List EventEffect) :
    ∀ table,
    (effects.all mechanismOk = true ∧
      deathApplyEffects table effects = .ok (specTableAfterEffects table effects)) ∨
    (effects.all mechanismOk = false ∧
      ∃ e, deathApplyEffects table effects = .error e) := by
  induction effects with
  | nil =>
    intro table
    exact Or.inl ⟨rfl, rfl⟩
  | cons eff rest ih =>
    intro table
    cases eff with
    | characterDeath c =>
      rcases ih (insertA table c false) with ⟨h1, h2⟩ | ⟨h1, e, h2⟩
      · exact Or.inl ⟨by simp [mechanismOk, h1], h2⟩
      · exact Or.inr ⟨by simp [mechanismOk, h1], e, h2⟩
    | characterResurrection c mech =>
      by_cases hm : mech = ""
      · refine Or.inr ⟨by simp [mechanismOk, hm], .resurrectionNoMechanism c, ?_⟩
        show (if mech = "" then Except.error (PropError.resurrectionNoMechanism c)
          else deathApplyEffects (insertA table c true) rest) = _
        rw [if_pos hm]
      · rcases ih (insertA table c true) with ⟨h1, h2⟩ | ⟨h1, e, h2⟩
        · refine Or.inl ⟨by simp [mechanismOk, hm, h1], ?_⟩
          show (if mech = "" then Except.error (PropError.resurrectionNoMechanism c)
            else deathApplyEffects (insertA table c true) rest) = _
          rw [if_neg hm]
          exact h2
        · refine Or.inr ⟨by simp [mechanismOk, hm, h1], e, ?_⟩
          show (if mech = "" then Except.error (PropError.resurrectionNoMechanism c)
            else deathApplyEffects (insertA table c true) rest) = _
          rw [if_neg hm]
          exact h2
    | relationshipChange c1 c2 st =>
      rcases ih table with ⟨h1, h2⟩ | ⟨h1, e, h2⟩
      · exact Or.inl ⟨by simp [mechanismOk, h1], h2⟩
      · exact Or.inr ⟨by simp [mechanismOk, h1], e, h2⟩
    | knowledgeGained c f =>
      rcases ih table with ⟨h1, h2⟩ | ⟨h1, e, h2⟩
      · exact Or.inl ⟨by simp [mechanismOk, h1], h2⟩
      · exact Or.inr ⟨by simp [mechanismOk, h1], e, h2⟩
    | memoryTransfer m f t =>
      rcases ih table with ⟨h1, h2⟩ | ⟨h1, e, h2⟩
      · exact Or.inl ⟨by simp [mechanismOk, h1], h2⟩
      · exact Or.inr ⟨by simp [mechanismOk, h1], e, h2⟩
    | timelineBranch t =>
      rcases ih table with ⟨h1, h2⟩ | ⟨h1, e, h2⟩
      · exact Or.inl ⟨by simp [mechanismOk, h1], h2⟩
      · exact Or.inr ⟨by simp [mechanismOk, h1], e, h2⟩
    | appraisalTrigger c b =>
      rcases ih table with ⟨h1, h2⟩ | ⟨h1, e, h2⟩
      · exact Or.inl ⟨by simp [mechanismOk, h1], h2⟩
      · exact Or.inr ⟨by simp [mechanismOk, h1], e, h2⟩
    | addGoal c g =>
      rcases ih table with ⟨h1, h2⟩ | ⟨h1, e, h2⟩
      · exact Or.inl ⟨by simp [mechanismOk, h1], h2⟩
      · exact Or.inr ⟨by simp [mechanismOk, h1], e, h2⟩

theorem deathReplayEvents_spec (mv : Multiverse) (events : List Nat) :
    ∀ table,
    (specEventsOk mv table events = true ∧
      deathReplayEvents mv table events =
        .ok (specTableAfterEvents mv table events)) ∨
    (specEventsOk mv table events = false ∧
      ∃ e, deathReplayEvents mv table events = .error e) := by
  induction events with
  | nil =>
    intro table
    exact Or.inl ⟨rfl, rfl⟩
  | cons eid rest ih =>
    intro table
    cases hle : lookupA mv.events eid with
    | none =>
      have hok : specEventsOk mv table (eid :: rest) = specEventsOk mv table rest := by
        simp only [specEventsOk, hle]
      have htb : specTableAfterEvents mv table (eid :: rest) =
          specTableAfterEvents mv table rest := by
        simp only [specTableAfterEvents, hle]
      have hrep : deathReplayEvents mv table (eid :: rest) =
          deathReplayEvents mv table rest := by
        show (match deathReplayEvent mv table eid with
          | .error e => Except.error e
          | .ok table' => deathReplayEvents mv table' rest) = _
        unfold deathReplayEvent
        rw [hle]
      rcases ih table with ⟨h1, h2⟩ | ⟨h1, e, h2⟩
      · exact Or.inl ⟨by rw [hok, h1], by rw [hrep, htb, h2]⟩
      · exact Or.inr ⟨by rw [hok, h1], e, by rw [hrep, h2]⟩
    | some ev =>
      have hok : specEventsOk mv table (eid :: rest) =
          ((specParticipantsOk table ev && ev.effects.all mechanismOk) &&
            specEventsOk mv (specTableAfterEffects table ev.effects) rest) := by
        simp only [specEventsOk, hle]
      have htb : specTableAfterEvents mv table (eid :: rest) =
          specTableAfterEvents mv (specTableAfterEffects table ev.effects) rest := by
        simp only [specTableAfterEvents, hle]
      have hstep : ∀ r : Except PropError (List (Nat × Bool)),
          deathReplayEvent mv table eid = r →
          deathReplayEvents mv table (eid :: rest) =
            (match r with
              | .error e => Except.error e
              | .ok table' => deathReplayEvents mv table' rest) := by
        intro r hr
        show (match deathReplayEvent mv table eid with
          | .error e => Except.error e
          | .ok table' => deathReplayEvents mv table' rest) = _
        rw [hr]
      by_cases hpart : specParticipantsOk table ev = true
      · have hcp : deathCheckParticipants table ev = none :=
          (deathCheckParticipants_none_iff _ _).mpr hpart
        rcases deathApplyEffects_spec ev.effects table with ⟨hm, happ⟩ | ⟨hm, e, happ⟩
        · have hevval : deathReplayEvent mv table eid =
              .ok (specTableAfterEffects table ev.effects) := by
            simp only [deathReplayEvent, hle, hcp]
            exact happ
          rcases ih (specTableAfterEffects table ev.effects) with ⟨h1, h2⟩ | ⟨h1, e, h2⟩
          · refine Or.inl ⟨?_, ?_⟩
            · rw [hok, hpart, hm, h1]
              rfl
            · rw [hstep _ hevval, htb]
              exact h2
          · refine Or.inr ⟨?_, e, ?_⟩
            · rw [hok, hpart, hm, h1]
              rfl
            · rw [hstep _ hevval]
              exact h2
        · have hevval : deathReplayEvent mv table eid = .error e := by
            simp only [deathReplayEvent, hle, hcp]
            exact happ
          refine Or.inr ⟨?_, e, ?_⟩
          · rw [hok, hpart, hm]
            rfl
          · rw [hstep _ hevval]
      · have hpf : specParticipantsOk table ev = false := by
          cases hb : specParticipantsOk table ev
          · rfl
          · exact absurd hb hpart
        cases hcp : deathCheckParticipants table ev with
        | none =>
          exact absurd ((deathCheckParticipants_none_iff _ _).mp hcp) hpart
        | some e =>
          have hevval : deathReplayEvent mv table eid = .error e := by
            simp only [deathReplayEvent, hle, hcp]
          refine Or.inr ⟨?_, e, ?_⟩
          · rw [hok, hpf]
            rfl
          · rw [hstep _ hevval]

theorem deathProcessTimelines_spec (mv : Multiverse) (tls : List Timeline) :
    ∀ state,
    (specTimelinesOk mv state tls = true ∧
      deathProcessTimelines mv state tls = .ok (specStateAfter mv state tls)) ∨
    (specTimelinesOk mv state tls = false ∧
      ∃ e, deathProcessTimelines mv state tls = .error e) := by
  induction tls with
  | nil =>
    intro state
    exact Or.inl ⟨rfl, rfl⟩
  | cons t rest ih =>
    intro state
    have hrep : deathProcessTimelines mv state (t :: rest) =
        (match deathReplayEvents mv (deathInitTable state t) t.events with
          | .error e => Except.error e
          | .ok table => deathProcessTimelines mv (insertA state t.id table) rest) := rfl
    rcases deathReplayEvents_spec mv t.events (deathInitTable state t) with
      ⟨h1, h2⟩ | ⟨h1, e, h2⟩
    · rcases ih (insertA state t.id
          (specTableAfterEvents mv (deathInitTable state t) t.events)) with
        ⟨h3, h4⟩ | ⟨h3, e, h4⟩
      · refine Or.inl ⟨?_, ?_⟩
        · show (specEventsOk mv (deathInitTable state t) t.events &&
            specTimelinesOk mv (insertA state t.id
              (specTableAfterEvents mv (deathInitTable state t) t.events)) rest) = true
          rw [h1, h3]
          rfl
        · rw [hrep, h2]
          exact h4
      · refine Or.inr ⟨?_, e, ?_⟩
        · show (specEventsOk mv (deathInitTable state t) t.events &&
            specTimelinesOk mv (insertA state t.id
              (specTableAfterEvents mv (deathInitTable state t) t.events)) rest) = false
          rw [h1, h3]
          rfl
        · rw [hrep, h2]
          exact h4
    · refine Or.inr ⟨?_, e, ?_⟩
      · show (specEventsOk mv (deathInitTable state t) t.events &&
          specTimelinesOk mv (insertA state t.id
            (specTableAfterEvents mv (deathInitTable state t) t.events)) rest) = false
        rw [h1]
        rfl
      · rw [hrep, h2]

theorem deathFinalCheck_spec (mv : Multiverse)
    (state : List (Nat × List (Nat × Bool))) :
    deathFinalCheck mv state = none ↔ specFinalOk mv state = true := by
  unfold deathFinalCheck specFinalOk
  rw [firstSome_eq_none_iff, List.all_eq_true]
  constructor
  · intro h p hp
    have hc := h p hp
    unfold deathCharCheck at hc
    cases hl : lookupA state p.2.current_timeline with
    | none => simp [hl]
    | some table =>
      simp only [hl] at hc
      simp only [hl]
      by_cases ha : p.2.alive = deathExpectedAlive table p.2.id
      · simp [ha]
      · rw [if_neg ha] at hc
        simp at hc
  · intro h p hp
    have hc := h p hp
    unfold deathCharCheck
    cases hl : lookupA state p.2.current_timeline with
    | none => simp [hl]
    | some table =>
      simp only [hl] at hc
      simp only [hl]
      rw [decide_eq_true_eq] at hc
      simp [hc]

/-- C2 counterexample: the claim reads "a branched timeline's replay starts
from its parent's computed liveness table as it stood at branch time". In
`mvBranch` the branch diverges at event 0, before X's death (event 1) in the
parent: under the claim's literal reading (`claimDeathFinality`) the check
passes, but the code inherits the parent's fully computed table (X dead) and
fails, flagging X (id 0) in event 2. -/
theorem C2_branch_time_counterexample :
    prop_death_finality mvBranch = some (.deadParticipant 0 2) ∧
    claimDeathFinality mvBranch = true :=
  ⟨by decide, by decide⟩

/-- C2 amended: `prop_death_finality` succeeds exactly when the spec-level
description holds, with the branch inheritance amended to the parent's fully
computed liveness table (after all of the parent's events, regardless of the
divergence event); timelines are processed in ascending id order (the
processing order is sorted by id and is a permutation of the stored timeline
values); the remaining conjuncts of the claim — root characters start alive,
participants must be alive unless the same event resurrects them, empty
resurrection mechanisms fail, death/resurrection effects update the table in
event order, and the final stored-flag comparison — are transcribed in
`specDeathFinality`. -/
theorem C2_death_finality_amended_spec (mv : Multiverse) :
    (prop_death_finality mv = none ↔ specDeathFinality mv = true) ∧
    (sortedTimelines mv).Sorted (fun a b => a.id ≤ b.id) ∧
    (sortedTimelines mv).Perm (mv.timelines.map (fun p => p.2)) := by
  refine ⟨?_, ?_, List.perm_insertionSort _ _⟩
  · unfold prop_death_finality specDeathFinality
    rcases deathProcessTimelines_spec mv (sortedTimelines mv) [] with
      ⟨h1, h2⟩ | ⟨h1, e, h2⟩
    · simp only [h2, h1, Bool.true_and]
      exact deathFinalCheck_spec mv _
    · simp only [h2, h1, Bool.false_and]
      simp
  · haveI ht : IsTotal Timeline (fun a b => a.id ≤ b.id) :=
      ⟨fun a b => Nat.le_total a.id b.id⟩
    haveI htr : IsTrans Timeline (fun a b => a.id ≤ b.id) :=
      ⟨fun a b c hab hbc => Nat.le_trans hab hbc⟩
    exact List.sorted_insertionSort _ _

/-- Witness for the amended C2 at the fresh store. -/
theorem C2_death_finality_amended_spec_witness :
    (prop_death_finality Multiverse.new = none ↔
      specDeathFinality Multiverse.new = true) ∧
    (sortedTimelines Multiverse.new).Sorted (fun a b => a.id ≤ b.id) ∧
    (sortedTimelines Multiverse.new).Perm
      (Multiverse.new.timelines.map (fun p => p.2)) :=
  C2_death_finality_amended_spec Multiverse.new

end OwlSpec
